import Mathlib

/-!
Formal model of the geometric core of the repository: the part-normalization
routine, `AxesGeometrySource` shaft/tip geometry reset, the axis-triad
construction, and `CubeFacesSource.update`
(file `pyvista/core/utilities/geometric_sources.py`).

Points are modelled with exact rational coordinates; the floating-point
arithmetic of the source is modelled as exact field arithmetic over ℚ.
-/

namespace PyVistaGeom

/-- A 3-D point with rational coordinates, indexed by axis (0 = x, 1 = y, 2 = z). -/
abbrev Point := Fin 3 → ℚ

/-- Build a point from its three coordinates. -/
def pt (x y z : ℚ) : Point := fun a => if a = 0 then x else if a = 1 then y else z

/-- A polygonal mesh: an ordered list of points plus a face connectivity list
(each face a list of point indices).  This is the minimal `PolyData` subset the
geometric core manipulates. -/
structure Mesh where
  points : List Point
  faces : List (List ℕ)
deriving DecidableEq

/-- Apply a function to every point of a mesh, keeping the faces. -/
def mapPoints (f : Point → Point) (m : Mesh) : Mesh := ⟨m.points.map f, m.faces⟩

/-- The list of coordinates of the mesh's points along one axis. -/
def coordsAlong (a : Fin 3) (m : Mesh) : List ℚ := m.points.map (fun p => p a)

/-- Minimum of a list of rationals (0 for the empty list). -/
def listMin : List ℚ → ℚ
  | [] => 0
  | c :: cs => cs.foldl min c

/-- Maximum of a list of rationals (0 for the empty list). -/
def listMax : List ℚ → ℚ
  | [] => 0
  | c :: cs => cs.foldl max c

/-- Lower bounding-box coordinate of the mesh along an axis. -/
def boundsMin (a : Fin 3) (m : Mesh) : ℚ := listMin (coordsAlong a m)

/-- Upper bounding-box coordinate of the mesh along an axis. -/
def boundsMax (a : Fin 3) (m : Mesh) : ℚ := listMax (coordsAlong a m)

/-- Bounding-box extent (edge length) of the mesh along an axis. -/
def extentAlong (a : Fin 3) (m : Mesh) : ℚ := boundsMax a m - boundsMin a m

/-- Bounding-box center of the mesh along an axis (pyvista `DataSet.center`). -/
def centerAlong (a : Fin 3) (m : Mesh) : ℚ := (boundsMin a m + boundsMax a m) / 2

/-- Translate every point of the mesh by the vector `v`. -/
def translatePart (v : Fin 3 → ℚ) (m : Mesh) : Mesh :=
  mapPoints (fun p a => p a + v a) m

/-- Scale every point of the mesh componentwise by the vector `s`
(pyvista `DataSet.scale`). -/
def scalePart (s : Fin 3 → ℚ) (m : Mesh) : Mesh :=
  mapPoints (fun p a => p a * s a) m

/-- Error raised by the geometric core; `notThreeDimensional` models the
`ValueError` of `AxesGeometrySource._normalize_part` for degenerate input. -/
inductive GeomError where
  | notThreeDimensional
deriving DecidableEq

/-- Embedding of `AxesGeometrySource._normalize_part`
(geometric_sources.py:3516-3531): subtract the bounding-box center from every
point, then fail if any recomputed axis length is `< 1e-8`, else scale each
axis by the reciprocal of its length. -/
def normalize_part (m : Mesh) : Except GeomError Mesh :=
  let centered := translatePart (fun a => -(centerAlong a m)) m
  if ∃ a, extentAlong a centered < 1 / 100000000 then
    Except.error GeomError.notThreeDimensional
  else
    Except.ok (scalePart (fun a => (extentAlong a centered)⁻¹) centered)

/-- True exactly when normalization rejected its input. -/
def isError (e : Except GeomError Mesh) : Bool :=
  match e with
  | Except.error _ => true
  | Except.ok _ => false

/-- Modelled from the spec: rotation of a mesh by +90 degrees about the y-axis,
`(x, y, z) ↦ (z, y, -x)` (pyvista `rotate_y` is not under `src/`; the spec
describes exact rotation about the origin). -/
def rotate_y90 (m : Mesh) : Mesh := mapPoints (fun p => pt (p 2) (p 1) (-(p 0))) m

/-- Modelled from the spec: rotation of a mesh by -90 degrees about the y-axis,
`(x, y, z) ↦ (-z, y, x)`. -/
def rotate_y_neg90 (m : Mesh) : Mesh := mapPoints (fun p => pt (-(p 2)) (p 1) (p 0)) m

/-- Modelled from the spec: rotation of a mesh by -90 degrees about the x-axis,
`(x, y, z) ↦ (x, z, -y)`. -/
def rotate_x_neg90 (m : Mesh) : Mesh := mapPoints (fun p => pt (p 0) (p 2) (-(p 1))) m

/-- Embedding of `AxesGeometrySource._make_axes_parts`
(geometric_sources.py:3533-3541) applied to an already-normalized z-pointing
template: the x part is the template rotated by +90 degrees about y, the y part
is the template rotated by -90 degrees about x, the z part is the template. -/
def make_axes_parts (t : Mesh) : Mesh × Mesh × Mesh :=
  (rotate_y90 t, rotate_x_neg90 t, t)

/-- Modelled from the spec: `flip_normal` with normal along `axis` through the
origin reflects the mesh across that plane (negating the `axis` coordinate) and
flips the face orientation (pyvista `flip_normal` is not under `src/`). -/
def flip_normal (axis : Fin 3) (m : Mesh) : Mesh :=
  { scalePart (fun a => if a = axis then -1 else 1) m with
    faces := m.faces.map List.reverse }

/-- Modelled from the spec: `append_polydata` concatenates the point lists and
the face lists, re-indexing the appended faces past the existing points
(pyvista `append_polydata` is not under `src/`). -/
def append_polydata (m other : Mesh) : Mesh :=
  ⟨m.points ++ other.points,
   m.faces ++ other.faces.map (fun f => f.map (fun i => i + m.points.length))⟩

/-- Embedding of one loop iteration of
`AxesGeometrySource._reset_shaft_and_tip_geometry`
(geometric_sources.py:3396-3439) for the part (`isTip`) on `axis`: copy the
normalized template, shift by +1/2 along `axis`, scale by the part length along
`axis` and by twice the part radius off-axis, move tips to the shaft end, then
either append a mirrored copy (symmetric) or append one degenerate cell at the
negated tip end (symmetric bounds, tips only). -/
def reset_part (tmpl : Mesh) (axis : Fin 3) (isTip : Bool)
    (shaftRadius : ℚ) (shaftLength : Fin 3 → ℚ)
    (tipRadius : ℚ) (tipLength : Fin 3 → ℚ)
    (symmetric symmetricBounds : Bool) : Mesh :=
  let radius : ℚ := if isTip then tipRadius else shaftRadius
  let length : Fin 3 → ℚ := if isTip then tipLength else shaftLength
  let p1 := translatePart (fun a => if a = axis then 1 / 2 else 0) tmpl
  let p2 := scalePart (fun a => if a = axis then length axis else 2 * radius) p1
  let p3 := if isTip then
      translatePart (fun a => if a = axis then shaftLength axis else 0) p2
    else p2
  if symmetric then
    append_polydata p3 (flip_normal axis p3)
  else if symmetricBounds && isTip then
    let tipEnd : Point := fun a => if a = axis then -(shaftLength axis + tipLength axis) else 0
    ⟨p3.points ++ [tipEnd],
     p3.faces ++ [[p3.points.length, p3.points.length, p3.points.length]]⟩
  else p3

/-- Embedding of `AxesGeometrySource.update` +
`_reset_shaft_and_tip_geometry`: the six named output parts, shafts first then
tips, in x-y-z order, each recomputed from its normalized template
(geometric_sources.py:3396-3441, 3445-3464). -/
def axes_output (shaftT tipT : Fin 3 → Mesh)
    (shaftRadius : ℚ) (shaftLength : Fin 3 → ℚ)
    (tipRadius : ℚ) (tipLength : Fin 3 → ℚ)
    (symmetric symmetricBounds : Bool) : List (String × Mesh) :=
  [("x_shaft", reset_part (shaftT 0) 0 false shaftRadius shaftLength tipRadius tipLength
      symmetric symmetricBounds),
   ("y_shaft", reset_part (shaftT 1) 1 false shaftRadius shaftLength tipRadius tipLength
      symmetric symmetricBounds),
   ("z_shaft", reset_part (shaftT 2) 2 false shaftRadius shaftLength tipRadius tipLength
      symmetric symmetricBounds),
   ("x_tip", reset_part (tipT 0) 0 true shaftRadius shaftLength tipRadius tipLength
      symmetric symmetricBounds),
   ("y_tip", reset_part (tipT 1) 1 true shaftRadius shaftLength tipRadius tipLength
      symmetric symmetricBounds),
   ("z_tip", reset_part (tipT 2) 2 true shaftRadius shaftLength tipRadius tipLength
      symmetric symmetricBounds)]

/-- The empty mesh, used as a lookup default. -/
def emptyMesh : Mesh := ⟨[], []⟩

/-- The output part with the given block name (the empty mesh if absent). -/
def partNamed (out : List (String × Mesh)) (name : String) : Mesh :=
  (out.lookup name).getD emptyMesh

/-- Coordinate `a` of point number `i` of the mesh (0 if out of range). -/
def pointCoord (m : Mesh) (i : ℕ) (a : Fin 3) : ℚ :=
  (m.points.getD i (pt 0 0 0)) a

/-- One corner of the axis-aligned box with the given center and edge lengths;
each sign argument selects the low (-1) or high (+1) side of its axis. -/
def boxCorner (center lengths : Fin 3 → ℚ) (sx sy sz : ℚ) : Point :=
  fun a => center a + (if a = 0 then sx else if a = 1 then sy else sz) * lengths a / 2

/-- Modelled from the spec: the 4 corner points of each face of the cube, in
the canonical output order +X, -X, +Y, -Y, +Z, -Z used by
`CubeFacesSource.update` (geometric_sources.py:4176-4183); the concrete corner
coordinates come from the toolkit cube source, which is not under `src/`. -/
def cube_face_points (center lengths : Fin 3 → ℚ) : Fin 6 → List Point
  | 0 => [boxCorner center lengths 1 (-1) (-1), boxCorner center lengths 1 1 (-1),
          boxCorner center lengths 1 1 1, boxCorner center lengths 1 (-1) 1]
  | 1 => [boxCorner center lengths (-1) (-1) (-1), boxCorner center lengths (-1) (-1) 1,
          boxCorner center lengths (-1) 1 1, boxCorner center lengths (-1) 1 (-1)]
  | 2 => [boxCorner center lengths (-1) 1 (-1), boxCorner center lengths (-1) 1 1,
          boxCorner center lengths 1 1 1, boxCorner center lengths 1 1 (-1)]
  | 3 => [boxCorner center lengths (-1) (-1) (-1), boxCorner center lengths 1 (-1) (-1),
          boxCorner center lengths 1 (-1) 1, boxCorner center lengths (-1) (-1) 1]
  | 4 => [boxCorner center lengths (-1) (-1) 1, boxCorner center lengths 1 (-1) 1,
          boxCorner center lengths 1 1 1, boxCorner center lengths (-1) 1 1]
  | 5 => [boxCorner center lengths (-1) (-1) (-1), boxCorner center lengths (-1) 1 (-1),
          boxCorner center lengths 1 1 (-1), boxCorner center lengths 1 (-1) (-1)]

/-- Embedding of the local `_scale_points` helper of `CubeFacesSource.update`
(geometric_sources.py:4145-4149): shift by the origin, scale componentwise,
shift back. -/
def scale_points (origin scale : Fin 3 → ℚ) (pts : List Point) : List Point :=
  pts.map (fun p a => (p a - origin a) * scale a + origin a)

/-- Componentwise mean of a list of points (`np.mean(points, axis=0)`). -/
def centroid (pts : List Point) : Fin 3 → ℚ :=
  fun a => ((pts.map (fun p => p a)).sum) / pts.length

/-- Euclidean norm, specialised: every vector it is applied to in this model
(a cube-center-to-face-centroid offset) has exactly one non-zero component, so
the L2 norm equals the sum of the absolute components. -/
def vecNormAA (v : Fin 3 → ℚ) : ℚ := |v 0| + |v 1| + |v 2|

/-- Embedding of `_create_frame_from_quad_points`
(geometric_sources.py:4151-4168): the inner points are the quad points scaled
toward `center`, and each frame quad joins one outer edge to its inner edge.
Returns the 16 frame points and the 4 quad faces. -/
def create_frame_from_quad_points (quad : List Point) (center scale : Fin 3 → ℚ) :
    List Point × List (List ℕ) :=
  let inner := scale_points center scale quad
  let q := fun i => quad.getD i (pt 0 0 0)
  let inn := fun i => inner.getD i (pt 0 0 0)
  ([q 0, q 1, inn 1, inn 0,
    q 1, q 2, inn 2, inn 1,
    q 2, q 3, inn 3, inn 2,
    q 3, q 0, inn 0, inn 3],
   [[0, 1, 2, 3], [4, 5, 6, 7], [8, 9, 10, 11], [12, 13, 14, 15]])

/-- One loop iteration of `CubeFacesSource.update`
(geometric_sources.py:4200-4231) for face `i`: optionally shrink the face
points toward the face center, optionally explode away from the cube center,
then emit either a single quad or a four-quad frame.  The face center is the
centroid of the unmodified face points, exactly as in the source (it is
computed before shrinking and is not recomputed after exploding). -/
def cube_face_build (center lengths : Fin 3 → ℚ)
    (shrinkFactor explodeFactor frameWidth : Option ℚ) (i : Fin 6) : Mesh :=
  let minLength := min (lengths 0) (min (lengths 1) (lengths 2))
  let pts0 := cube_face_points center lengths i
  let faceCenter := centroid pts0
  let pts1 := match shrinkFactor with
    | none => pts0
    | some s =>
        scale_points faceCenter
          (fun a => s + (1 - s) * (1 - minLength / lengths a)) pts0
  let pts2 := match explodeFactor with
    | none => pts1
    | some e =>
        let offset : Fin 3 → ℚ := fun a => faceCenter a - center a
        let direction : Fin 3 → ℚ := fun a => offset a / vecNormAA offset
        pts1.map (fun p a => p a + direction a * (minLength * e))
  match frameWidth with
  | none => ⟨pts2, [[0, 1, 2, 3]]⟩
  | some w =>
      let frameScale : Fin 3 → ℚ := fun a => 1 - w * minLength / lengths a
      let fp := create_frame_from_quad_points pts2 faceCenter frameScale
      ⟨fp.1, fp.2⟩

/-- Embedding of `CubeFacesSource.update` (geometric_sources.py:4142-4231):
the six named face meshes, in the canonical +X, -X, +Y, -Y, +Z, -Z order. -/
def cube_faces_update (center lengths : Fin 3 → ℚ)
    (shrinkFactor explodeFactor frameWidth : Option ℚ)
    (names : Fin 6 → String) : List (String × Mesh) :=
  [(names 0, cube_face_build center lengths shrinkFactor explodeFactor frameWidth 0),
   (names 1, cube_face_build center lengths shrinkFactor explodeFactor frameWidth 1),
   (names 2, cube_face_build center lengths shrinkFactor explodeFactor frameWidth 2),
   (names 3, cube_face_build center lengths shrinkFactor explodeFactor frameWidth 3),
   (names 4, cube_face_build center lengths shrinkFactor explodeFactor frameWidth 4),
   (names 5, cube_face_build center lengths shrinkFactor explodeFactor frameWidth 5)]

/-- The default face names of `CubeFacesSource`
(geometric_sources.py:3947). -/
def default_face_names : Fin 6 → String
  | 0 => "+X"
  | 1 => "-X"
  | 2 => "+Y"
  | 3 => "-Y"
  | 4 => "+Z"
  | 5 => "-Z"

/-- The default cube center of `CubeFacesSource` (the origin). -/
def defaultCenter : Fin 3 → ℚ := fun _ => 0

/-- The default cube edge lengths of `CubeFacesSource` (all 1). -/
def defaultLengths : Fin 3 → ℚ := fun _ => 1

/-- Embedding of the `frame_width` setter validation
(geometric_sources.py:3992-3998): a non-`None` value must lie in the closed
range `[0, 1]`. -/
def frame_width_valid (w : ℚ) : Bool := decide (0 ≤ w) && decide (w ≤ 1)

/-- The `i`-th face mesh of an update result (the empty mesh if absent). -/
def facePart (out : List (String × Mesh)) (i : ℕ) : Mesh :=
  (out.getD i (("", emptyMesh))).2

/-!
Object-identity model for the `output` accessor.  In the source the accessor
returns `self._output` itself (geometric_sources.py:4248-4249 and 3463-3464) —
a reference, not a copy — and `update` writes the recomputed geometry into the
blocks of that same object in place.  We model Python object identity with a
small heap of composite values addressed by natural numbers: a caller holds an
address, and dereferences it against the heap as it stands at observation time.
-/

/-- A heap of composite (multi-block) values, addressed by list position. -/
abbrev Heap := List (List (String × Mesh))

/-- The full parameter/identity state of a `CubeFacesSource`: the cube
parameters together with the heap address of its one `_output` object
(allocated once in `__init__`, geometric_sources.py:3960). -/
structure CubeFacesState where
  center : Fin 3 → ℚ
  lengths : Fin 3 → ℚ
  shrinkFactor : Option ℚ
  explodeFactor : Option ℚ
  frameWidth : Option ℚ
  names : Fin 6 → String
  outAddr : ℕ

/-- `CubeFacesSource.update` as a heap action: recompute the six faces from
the current parameters and store them in place at the source's output
address. -/
def cf_heap_update (s : CubeFacesState) (h : Heap) : Heap :=
  h.set s.outAddr
    (cube_faces_update s.center s.lengths s.shrinkFactor s.explodeFactor s.frameWidth s.names)

/-- The `output` accessor (geometric_sources.py:4233-4249): update in place,
then hand the caller the address of the internal `_output` object (the source
returns `self._output` itself, without copying). -/
def cf_output (s : CubeFacesState) (h : Heap) : ℕ × Heap :=
  (s.outAddr, cf_heap_update s h)

/-- Dereference an address against the heap as it stands now. -/
def deref (h : Heap) (r : ℕ) : List (String × Mesh) :=
  h.getD r []

/-- A default-constructed `CubeFacesSource` whose output object lives at
address 0. -/
def cfDefaultState : CubeFacesState :=
  ⟨defaultCenter, defaultLengths, none, none, none, default_face_names, 0⟩

/-- The default state after the caller sets `x_length = 2`. -/
def cfWideState : CubeFacesState :=
  { cfDefaultState with lengths := fun a => if a = 0 then 2 else 1 }

/-!  Concrete fixtures used by witnesses and counterexamples.  -/

/-- A concrete normalized template: the eight corners of the cube
`[-1/2, 1/2]^3` with two quad faces; its bounding box is exactly the unit cube
centered at the origin. -/
def unitTemplate : Mesh :=
  ⟨[pt (-(1/2)) (-(1/2)) (-(1/2)), pt (1/2) (-(1/2)) (-(1/2)),
    pt (1/2) (1/2) (-(1/2)), pt (-(1/2)) (1/2) (-(1/2)),
    pt (-(1/2)) (-(1/2)) (1/2), pt (1/2) (-(1/2)) (1/2),
    pt (1/2) (1/2) (1/2), pt (-(1/2)) (1/2) (1/2)],
   [[0, 1, 2, 3], [4, 5, 6, 7]]⟩

/-- Modelled from the spec: the toolkit cone primitive oriented with its apex
pointing in the +z direction (the toolkit generator is not under `src/`; the
source requests resolution 50, but the orientation facts used here are
resolution-independent, so the base circle is tessellated with 4 points). -/
def conePrimitive : Mesh :=
  ⟨[pt 0 0 1, pt 1 0 (-1), pt 0 1 (-1), pt (-1) 0 (-1), pt 0 (-1) (-1)],
   [[1, 2, 3, 4], [0, 1, 2], [0, 2, 3], [0, 3, 4], [0, 4, 1]]⟩

/-- The normalized cone template, as produced by
`AxesGeometrySource._make_any_part('cone')`: the cone primitive passed through
`normalize_part`. -/
def cone_template : Mesh :=
  match normalize_part conePrimitive with
  | Except.ok m => m
  | Except.error _ => emptyMesh

/-- A mesh whose bounding-box extent along x is exactly `1e-8` (and 1 along
y and z). -/
def hairlineMesh : Mesh :=
  ⟨[pt 0 0 0, pt (1 / 100000000) 1 1], [[0, 1]]⟩

/-!  Arithmetic of list minima and maxima under affine maps.  -/

theorem min_add_right (a b c : ℚ) : min a b + c = min (a + c) (b + c) := by
  rcases le_total a b with h | h
  · rw [min_eq_left h, min_eq_left (by linarith)]
  · rw [min_eq_right h, min_eq_right (by linarith)]

theorem max_add_right (a b c : ℚ) : max a b + c = max (a + c) (b + c) := by
  rcases le_total a b with h | h
  · rw [max_eq_right h, max_eq_right (by linarith)]
  · rw [max_eq_left h, max_eq_left (by linarith)]

theorem min_mul_right_nonneg (a b c : ℚ) (hc : 0 ≤ c) :
    min a b * c = min (a * c) (b * c) := by
  rcases le_total a b with h | h
  · rw [min_eq_left h, min_eq_left (mul_le_mul_of_nonneg_right h hc)]
  · rw [min_eq_right h, min_eq_right (mul_le_mul_of_nonneg_right h hc)]

theorem max_mul_right_nonneg (a b c : ℚ) (hc : 0 ≤ c) :
    max a b * c = max (a * c) (b * c) := by
  rcases le_total a b with h | h
  · rw [max_eq_right h, max_eq_right (mul_le_mul_of_nonneg_right h hc)]
  · rw [max_eq_left h, max_eq_left (mul_le_mul_of_nonneg_right h hc)]

theorem max_mul_right_nonpos (a b c : ℚ) (hc : c ≤ 0) :
    max a b * c = min (a * c) (b * c) := by
  rcases le_total a b with h | h
  · rw [max_eq_right h, min_eq_right (mul_le_mul_of_nonpos_right h hc)]
  · rw [max_eq_left h, min_eq_left (mul_le_mul_of_nonpos_right h hc)]

theorem min_mul_right_nonpos (a b c : ℚ) (hc : c ≤ 0) :
    min a b * c = max (a * c) (b * c) := by
  rcases le_total a b with h | h
  · rw [min_eq_left h, max_eq_left (mul_le_mul_of_nonpos_right h hc)]
  · rw [min_eq_right h, max_eq_right (mul_le_mul_of_nonpos_right h hc)]

theorem foldl_min_map (f : ℚ → ℚ) (hf : ∀ a b, f (min a b) = min (f a) (f b)) :
    ∀ (l : List ℚ) (i : ℚ), (l.map f).foldl min (f i) = f (l.foldl min i) := by
  intro l
  induction l with
  | nil => intro i; rfl
  | cons x xs ih =>
      intro i
      simp only [List.map_cons, List.foldl_cons]
      rw [← hf]
      exact ih (min i x)

theorem foldl_max_map (f : ℚ → ℚ) (hf : ∀ a b, f (max a b) = max (f a) (f b)) :
    ∀ (l : List ℚ) (i : ℚ), (l.map f).foldl max (f i) = f (l.foldl max i) := by
  intro l
  induction l with
  | nil => intro i; rfl
  | cons x xs ih =>
      intro i
      simp only [List.map_cons, List.foldl_cons]
      rw [← hf]
      exact ih (max i x)

theorem foldl_min_map_anti (f : ℚ → ℚ) (hf : ∀ a b, f (max a b) = min (f a) (f b)) :
    ∀ (l : List ℚ) (i : ℚ), (l.map f).foldl min (f i) = f (l.foldl max i) := by
  intro l
  induction l with
  | nil => intro i; rfl
  | cons x xs ih =>
      intro i
      simp only [List.map_cons, List.foldl_cons]
      rw [← hf]
      exact ih (max i x)

theorem foldl_max_map_anti (f : ℚ → ℚ) (hf : ∀ a b, f (min a b) = max (f a) (f b)) :
    ∀ (l : List ℚ) (i : ℚ), (l.map f).foldl max (f i) = f (l.foldl min i) := by
  intro l
  induction l with
  | nil => intro i; rfl
  | cons x xs ih =>
      intro i
      simp only [List.map_cons, List.foldl_cons]
      rw [← hf]
      exact ih (min i x)

theorem listMin_map (f : ℚ → ℚ) (hf : ∀ a b, f (min a b) = min (f a) (f b))
    (l : List ℚ) (hl : l ≠ []) : listMin (l.map f) = f (listMin l) := by
  cases l with
  | nil => exact absurd rfl hl
  | cons c cs => exact foldl_min_map f hf cs c

theorem listMax_map (f : ℚ → ℚ) (hf : ∀ a b, f (max a b) = max (f a) (f b))
    (l : List ℚ) (hl : l ≠ []) : listMax (l.map f) = f (listMax l) := by
  cases l with
  | nil => exact absurd rfl hl
  | cons c cs => exact foldl_max_map f hf cs c

theorem listMin_map_anti (f : ℚ → ℚ) (hf : ∀ a b, f (max a b) = min (f a) (f b))
    (l : List ℚ) (hl : l ≠ []) : listMin (l.map f) = f (listMax l) := by
  cases l with
  | nil => exact absurd rfl hl
  | cons c cs => exact foldl_min_map_anti f hf cs c

theorem listMax_map_anti (f : ℚ → ℚ) (hf : ∀ a b, f (min a b) = max (f a) (f b))
    (l : List ℚ) (hl : l ≠ []) : listMax (l.map f) = f (listMin l) := by
  cases l with
  | nil => exact absurd rfl hl
  | cons c cs => exact foldl_max_map_anti f hf cs c

theorem foldl_min_shift : ∀ (l : List ℚ) (i j : ℚ),
    l.foldl min (min i j) = min i (l.foldl min j) := by
  intro l
  induction l with
  | nil => intro i j; rfl
  | cons x xs ih =>
      intro i j
      simp only [List.foldl_cons]
      rw [min_assoc]
      exact ih i (min j x)

theorem foldl_max_shift : ∀ (l : List ℚ) (i j : ℚ),
    l.foldl max (max i j) = max i (l.foldl max j) := by
  intro l
  induction l with
  | nil => intro i j; rfl
  | cons x xs ih =>
      intro i j
      simp only [List.foldl_cons]
      rw [max_assoc]
      exact ih i (max j x)

theorem listMin_append (l1 l2 : List ℚ) (h1 : l1 ≠ []) (h2 : l2 ≠ []) :
    listMin (l1 ++ l2) = min (listMin l1) (listMin l2) := by
  cases l1 with
  | nil => exact absurd rfl h1
  | cons c cs =>
      cases l2 with
      | nil => exact absurd rfl h2
      | cons d ds =>
          show (cs ++ d :: ds).foldl min c = min (cs.foldl min c) (ds.foldl min d)
          rw [List.foldl_append, List.foldl_cons]
          exact foldl_min_shift ds (cs.foldl min c) d

theorem listMax_append (l1 l2 : List ℚ) (h1 : l1 ≠ []) (h2 : l2 ≠ []) :
    listMax (l1 ++ l2) = max (listMax l1) (listMax l2) := by
  cases l1 with
  | nil => exact absurd rfl h1
  | cons c cs =>
      cases l2 with
      | nil => exact absurd rfl h2
      | cons d ds =>
          show (cs ++ d :: ds).foldl max c = max (cs.foldl max c) (ds.foldl max d)
          rw [List.foldl_append, List.foldl_cons]
          exact foldl_max_shift ds (cs.foldl max c) d

/-!  Bounding-box behaviour of the mesh transforms.  -/

theorem coords_translate (a : Fin 3) (v : Fin 3 → ℚ) (m : Mesh) :
    coordsAlong a (translatePart v m) = (coordsAlong a m).map (fun x => x + v a) := by
  simp only [coordsAlong, translatePart, mapPoints, List.map_map]
  rfl

theorem coords_scale (a : Fin 3) (s : Fin 3 → ℚ) (m : Mesh) :
    coordsAlong a (scalePart s m) = (coordsAlong a m).map (fun x => x * s a) := by
  simp only [coordsAlong, scalePart, mapPoints, List.map_map]
  rfl

theorem coords_flip (a axis : Fin 3) (m : Mesh) :
    coordsAlong a (flip_normal axis m) =
      (coordsAlong a m).map (fun x => x * (if a = axis then -1 else 1)) := by
  simp only [coordsAlong, flip_normal, scalePart, mapPoints, List.map_map]
  rfl

theorem coords_append (a : Fin 3) (m1 m2 : Mesh) :
    coordsAlong a (append_polydata m1 m2) = coordsAlong a m1 ++ coordsAlong a m2 := by
  simp only [coordsAlong, append_polydata, List.map_append]

theorem coords_ne_nil (a : Fin 3) (m : Mesh) (h : m.points ≠ []) :
    coordsAlong a m ≠ [] := by
  simpa [coordsAlong, List.map_eq_nil_iff] using h

theorem translate_points_ne (v : Fin 3 → ℚ) (m : Mesh) (h : m.points ≠ []) :
    (translatePart v m).points ≠ [] := by
  simpa [translatePart, mapPoints, List.map_eq_nil_iff] using h

theorem scale_points_ne (s : Fin 3 → ℚ) (m : Mesh) (h : m.points ≠ []) :
    (scalePart s m).points ≠ [] := by
  simpa [scalePart, mapPoints, List.map_eq_nil_iff] using h

theorem flip_points_ne (axis : Fin 3) (m : Mesh) (h : m.points ≠ []) :
    (flip_normal axis m).points ≠ [] := by
  simpa [flip_normal, scalePart, mapPoints, List.map_eq_nil_iff] using h

theorem boundsMin_translate (a : Fin 3) (v : Fin 3 → ℚ) (m : Mesh) (h : m.points ≠ []) :
    boundsMin a (translatePart v m) = boundsMin a m + v a := by
  rw [boundsMin, coords_translate,
    listMin_map (fun x => x + v a) (fun p q => min_add_right p q (v a)) _
      (coords_ne_nil a m h)]
  rfl

theorem boundsMax_translate (a : Fin 3) (v : Fin 3 → ℚ) (m : Mesh) (h : m.points ≠ []) :
    boundsMax a (translatePart v m) = boundsMax a m + v a := by
  rw [boundsMax, coords_translate,
    listMax_map (fun x => x + v a) (fun p q => max_add_right p q (v a)) _
      (coords_ne_nil a m h)]
  rfl

theorem boundsMin_scale (a : Fin 3) (s : Fin 3 → ℚ) (m : Mesh) (h : m.points ≠ [])
    (hs : 0 ≤ s a) :
    boundsMin a (scalePart s m) = boundsMin a m * s a := by
  rw [boundsMin, coords_scale,
    listMin_map (fun x => x * s a) (fun p q => min_mul_right_nonneg p q (s a) hs) _
      (coords_ne_nil a m h)]
  rfl

theorem boundsMax_scale (a : Fin 3) (s : Fin 3 → ℚ) (m : Mesh) (h : m.points ≠ [])
    (hs : 0 ≤ s a) :
    boundsMax a (scalePart s m) = boundsMax a m * s a := by
  rw [boundsMax, coords_scale,
    listMax_map (fun x => x * s a) (fun p q => max_mul_right_nonneg p q (s a) hs) _
      (coords_ne_nil a m h)]
  rfl

theorem boundsMin_flip_on_axis (axis : Fin 3) (m : Mesh) (h : m.points ≠ []) :
    boundsMin axis (flip_normal axis m) = -(boundsMax axis m) := by
  rw [boundsMin, coords_flip]
  simp only [eq_self_iff_true, if_true]
  rw [listMin_map_anti (fun x => x * (-1))
    (fun p q => max_mul_right_nonpos p q (-1) (by norm_num)) _ (coords_ne_nil axis m h)]
  show listMax (coordsAlong axis m) * (-1) = -(boundsMax axis m)
  rw [boundsMax]
  ring

theorem boundsMax_flip_on_axis (axis : Fin 3) (m : Mesh) (h : m.points ≠ []) :
    boundsMax axis (flip_normal axis m) = -(boundsMin axis m) := by
  rw [boundsMax, coords_flip]
  simp only [eq_self_iff_true, if_true]
  rw [listMax_map_anti (fun x => x * (-1))
    (fun p q => min_mul_right_nonpos p q (-1) (by norm_num)) _ (coords_ne_nil axis m h)]
  show listMin (coordsAlong axis m) * (-1) = -(boundsMin axis m)
  rw [boundsMin]
  ring

theorem boundsMin_append (a : Fin 3) (m1 m2 : Mesh)
    (h1 : m1.points ≠ []) (h2 : m2.points ≠ []) :
    boundsMin a (append_polydata m1 m2) = min (boundsMin a m1) (boundsMin a m2) := by
  rw [boundsMin, coords_append,
    listMin_append _ _ (coords_ne_nil a m1 h1) (coords_ne_nil a m2 h2)]
  rfl

theorem boundsMax_append (a : Fin 3) (m1 m2 : Mesh)
    (h1 : m1.points ≠ []) (h2 : m2.points ≠ []) :
    boundsMax a (append_polydata m1 m2) = max (boundsMax a m1) (boundsMax a m2) := by
  rw [boundsMax, coords_append,
    listMax_append _ _ (coords_ne_nil a m1 h1) (coords_ne_nil a m2 h2)]
  rfl

theorem mapPoints_id_of (f : Point → Point) (h : ∀ p : Point, f p = p) (m : Mesh) :
    mapPoints f m = m := by
  cases m with
  | mk ps fs =>
      simp only [mapPoints, show f = id from funext h, List.map_id]

/-!  Behaviour of `normalize_part`.  -/

theorem exists_fin3 (P : Fin 3 → Prop) : (∃ a, P a) ↔ P 0 ∨ P 1 ∨ P 2 := by
  constructor
  · rintro ⟨a, ha⟩
    fin_cases a
    · exact Or.inl ha
    · exact Or.inr (Or.inl ha)
    · exact Or.inr (Or.inr ha)
  · rintro (h | h | h)
    exacts [⟨0, h⟩, ⟨1, h⟩, ⟨2, h⟩]

theorem extent_translate (a : Fin 3) (v : Fin 3 → ℚ) (m : Mesh) (h : m.points ≠ []) :
    extentAlong a (translatePart v m) = extentAlong a m := by
  rw [extentAlong, extentAlong, boundsMin_translate a v m h, boundsMax_translate a v m h]
  ring

/-- Core normalization lemma: on input with every axis extent above the `1e-8`
threshold, `normalize_part` succeeds and the result's bounding box is exactly
`[-1/2, 1/2]` on every axis. -/
theorem normalize_core (m : Mesh) (hne : m.points ≠ [])
    (hdeg : ∀ a, 1 / 100000000 < extentAlong a m) :
    ∃ m2, normalize_part m = Except.ok m2 ∧
      ∀ a, boundsMin a m2 = -(1 / 2) ∧ boundsMax a m2 = 1 / 2 := by
  have hcne : (translatePart (fun a => -(centerAlong a m)) m).points ≠ [] :=
    translate_points_ne _ m hne
  have hext : ∀ a, extentAlong a (translatePart (fun a => -(centerAlong a m)) m) =
      extentAlong a m := fun a => extent_translate a _ m hne
  have hcond : ¬ ∃ a, extentAlong a (translatePart (fun a => -(centerAlong a m)) m) <
      1 / 100000000 := by
    rintro ⟨a, ha⟩
    rw [hext a] at ha
    exact absurd ha (not_lt.mpr (le_of_lt (hdeg a)))
  refine ⟨scalePart (fun a => (extentAlong a (translatePart (fun a => -(centerAlong a m)) m))⁻¹)
      (translatePart (fun a => -(centerAlong a m)) m), ?_, ?_⟩
  · simp only [normalize_part]
    rw [if_neg hcond]
  · intro a
    have hepos : 0 < extentAlong a m := lt_trans (by norm_num) (hdeg a)
    have hinv : (0 : ℚ) ≤
        (extentAlong a (translatePart (fun a => -(centerAlong a m)) m))⁻¹ := by
      rw [hext a]
      exact le_of_lt (inv_pos.mpr hepos)
    have hmin : boundsMin a (translatePart (fun a => -(centerAlong a m)) m) =
        -(extentAlong a m) / 2 := by
      rw [boundsMin_translate a _ m hne, centerAlong, extentAlong]
      ring
    have hmax : boundsMax a (translatePart (fun a => -(centerAlong a m)) m) =
        extentAlong a m / 2 := by
      rw [boundsMax_translate a _ m hne, centerAlong, extentAlong]
      ring
    have hne0 : extentAlong a m ≠ 0 := ne_of_gt hepos
    constructor
    · rw [boundsMin_scale a _ _ hcne hinv, hmin, hext a]
      field_simp
      ring
    · rw [boundsMax_scale a _ _ hcne hinv, hmax, hext a]
      field_simp
      ring

/-- A mesh whose bounding box is exactly `[-1/2, 1/2]` on every axis is a fixed
point of `normalize_part`: centering subtracts zero and scaling multiplies by
one. -/
theorem normalize_fixed (m : Mesh)
    (hb : ∀ a, boundsMin a m = -(1 / 2) ∧ boundsMax a m = 1 / 2) :
    normalize_part m = Except.ok m := by
  have hc : ∀ a, centerAlong a m = 0 := fun a => by
    rw [centerAlong, (hb a).1, (hb a).2]
    norm_num
  have hext : ∀ a, extentAlong a m = 1 := fun a => by
    rw [extentAlong, (hb a).1, (hb a).2]
    norm_num
  have h1 : translatePart (fun a => -(centerAlong a m)) m = m :=
    mapPoints_id_of _ (fun p => funext fun a => by simp [hc a]) m
  have h2 : scalePart (fun a => (extentAlong a m)⁻¹) m = m :=
    mapPoints_id_of _ (fun p => funext fun a => by simp [hext a]) m
  have hcond : ¬ ∃ a, extentAlong a m < 1 / 100000000 := by
    rintro ⟨a, ha⟩
    rw [hext a] at ha
    norm_num at ha
  simp only [normalize_part, h1]
  rw [if_neg hcond, h2]

/-- C2: for every input mesh whose bounding box is non-degenerate (extent above
the `1e-8` threshold) on all three axes, `normalize_part` centers and rescales
it so that the returned mesh's bounding box is exactly `[-0.5, 0.5]` on every
axis. -/
theorem normalize_unit_bounds (m : Mesh) (hne : m.points ≠ [])
    (hdeg : ∀ a, 1 / 100000000 < extentAlong a m) :
    ∃ m2, normalize_part m = Except.ok m2 ∧
      ∀ a, boundsMin a m2 = -(1 / 2) ∧ boundsMax a m2 = 1 / 2 :=
  normalize_core m hne hdeg

/-- Witness for C2 at the concrete cube template. -/
theorem normalize_unit_bounds_witness :
    (unitTemplate.points ≠ [] ∧ ∀ a, 1 / 100000000 < extentAlong a unitTemplate) ∧
    ∃ m2, normalize_part unitTemplate = Except.ok m2 ∧
      ∀ a, boundsMin a m2 = -(1 / 2) ∧ boundsMax a m2 = 1 / 2 :=
  ⟨⟨by simp [unitTemplate], by
      intro a
      fin_cases a <;>
        simp [extentAlong, boundsMin, boundsMax, coordsAlong, unitTemplate, listMin, listMax,
          pt, min_def, max_def] <;> norm_num⟩,
   normalize_unit_bounds unitTemplate (by simp [unitTemplate]) (by
      intro a
      fin_cases a <;>
        simp [extentAlong, boundsMin, boundsMax, coordsAlong, unitTemplate, listMin, listMax,
          pt, min_def, max_def] <;> norm_num)⟩

/-- The unit cube template has unit bounds, computed once for reuse. -/
theorem unitTemplate_bounds :
    ∀ a, boundsMin a unitTemplate = -(1 / 2) ∧ boundsMax a unitTemplate = 1 / 2 := by
  intro a
  fin_cases a <;>
    simp [boundsMin, boundsMax, coordsAlong, unitTemplate, listMin, listMax,
      pt, min_def, max_def]

/-- C8: normalization is idempotent.  If a mesh with non-degenerate bounds is
normalized, the normalized copy is itself accepted by `normalize_part` and is
returned unchanged, so its bounding box is still exactly `[-0.5, 0.5]^3`:
normalized meshes are fixed points of the routine. -/
theorem normalize_idempotent (m m1 : Mesh) (hne : m.points ≠ [])
    (hdeg : ∀ a, 1 / 100000000 < extentAlong a m)
    (h1 : normalize_part m = Except.ok m1) :
    normalize_part m1 = Except.ok m1 ∧
      ∀ a, boundsMin a m1 = -(1 / 2) ∧ boundsMax a m1 = 1 / 2 := by
  obtain ⟨m2, heq, hb⟩ := normalize_core m hne hdeg
  have h12 : Except.ok (ε := GeomError) m2 = Except.ok m1 := heq.symm.trans h1
  injection h12 with hm
  subst hm
  exact ⟨normalize_fixed m2 hb, hb⟩

/-- Witness for C8: the (already normalized) cube template normalizes to
itself, and feeding that equation through the theorem re-normalizes it. -/
theorem normalize_idempotent_witness :
    (unitTemplate.points ≠ [] ∧ (∀ a, 1 / 100000000 < extentAlong a unitTemplate) ∧
      normalize_part unitTemplate = Except.ok unitTemplate) ∧
    normalize_part unitTemplate = Except.ok unitTemplate ∧
      ∀ a, boundsMin a unitTemplate = -(1 / 2) ∧ boundsMax a unitTemplate = 1 / 2 :=
  ⟨⟨by simp [unitTemplate], by
      intro a
      fin_cases a <;>
        simp [extentAlong, boundsMin, boundsMax, coordsAlong, unitTemplate, listMin, listMax,
          pt, min_def, max_def] <;> norm_num,
    normalize_fixed unitTemplate unitTemplate_bounds⟩,
   normalize_idempotent unitTemplate unitTemplate (by simp [unitTemplate]) (by
      intro a
      fin_cases a <;>
        simp [extentAlong, boundsMin, boundsMax, coordsAlong, unitTemplate, listMin, listMax,
          pt, min_def, max_def] <;> norm_num)
     (normalize_fixed unitTemplate unitTemplate_bounds)⟩

/-- C5 counterexample: a mesh whose extent along x is exactly `1e-8` (and so
does not exceed `1e-8`) is accepted by `normalize_part`, not rejected — the
source's check is the strict comparison `axis_length < 1e-8`. -/
theorem normalize_threshold_cex :
    extentAlong 0 hairlineMesh = 1 / 100000000 ∧
    isError (normalize_part hairlineMesh) = false := by
  constructor
  · simp [extentAlong, boundsMin, boundsMax, coordsAlong, hairlineMesh, listMin, listMax,
      pt, min_def, max_def]
  · simp only [normalize_part]
    rw [if_neg ?_]
    · rfl
    · rw [exists_fin3]
      push_neg
      refine ⟨?_, ?_, ?_⟩ <;>
        simp [extentAlong, boundsMin, boundsMax, centerAlong, coordsAlong, translatePart,
          mapPoints, hairlineMesh, listMin, listMax, pt, min_def, max_def] <;> norm_num

/-- C5 amended: normalization fails with the not-three-dimensional error if and
only if the input's bounding-box extent on some axis is strictly below `1e-8`;
an extent exactly equal to `1e-8` is accepted. -/
theorem normalize_reject_iff (m : Mesh) :
    isError (normalize_part m) = true ↔ ∃ a, extentAlong a m < 1 / 100000000 := by
  by_cases hne : m.points = []
  · have h1 : extentAlong 0 m = 0 := by
      simp [extentAlong, boundsMin, boundsMax, coordsAlong, hne, listMin, listMax]
    have h2 : extentAlong 0 (translatePart (fun a => -(centerAlong a m)) m) = 0 := by
      simp [extentAlong, boundsMin, boundsMax, coordsAlong, translatePart, mapPoints, hne,
        listMin, listMax]
    constructor
    · intro _
      exact ⟨0, by rw [h1]; norm_num⟩
    · intro _
      simp only [normalize_part]
      rw [if_pos ⟨0, by rw [h2]; norm_num⟩]
      rfl
  · have hext : ∀ a, extentAlong a (translatePart (fun a => -(centerAlong a m)) m) =
        extentAlong a m := fun a => extent_translate a _ m hne
    by_cases hcond : ∃ a, extentAlong a (translatePart (fun a => -(centerAlong a m)) m) <
        1 / 100000000
    · have hok : isError (normalize_part m) = true := by
        simp only [normalize_part]
        rw [if_pos hcond]
        rfl
      rw [hok]
      obtain ⟨a, ha⟩ := hcond
      simp only [true_iff]
      exact ⟨a, by rw [← hext a]; exact ha⟩
    · have hok : isError (normalize_part m) = false := by
        simp only [normalize_part]
        rw [if_neg hcond]
        rfl
      rw [hok]
      constructor
      · intro h
        exact absurd h (by norm_num)
      · rintro ⟨a, ha⟩
        exact absurd ⟨a, by rw [hext a]; exact ha⟩ hcond

/-!  Bounding boxes of the shaft and tip parts.  -/

theorem reset_shaft_eq (t : Mesh) (axis : Fin 3) (sr tr : ℚ) (sl tl : Fin 3 → ℚ) :
    reset_part t axis false sr sl tr tl false false =
      scalePart (fun a => if a = axis then sl axis else 2 * sr)
        (translatePart (fun a => if a = axis then 1 / 2 else 0) t) := rfl

theorem reset_tip_eq (t : Mesh) (axis : Fin 3) (sr tr : ℚ) (sl tl : Fin 3 → ℚ) :
    reset_part t axis true sr sl tr tl false false =
      translatePart (fun a => if a = axis then sl axis else 0)
        (scalePart (fun a => if a = axis then tl axis else 2 * tr)
          (translatePart (fun a => if a = axis then 1 / 2 else 0) t)) := rfl

theorem reset_shaft_sym_eq (t : Mesh) (axis : Fin 3) (sr tr : ℚ) (sl tl : Fin 3 → ℚ)
    (sb : Bool) :
    reset_part t axis false sr sl tr tl true sb =
      append_polydata
        (scalePart (fun a => if a = axis then sl axis else 2 * sr)
          (translatePart (fun a => if a = axis then 1 / 2 else 0) t))
        (flip_normal axis
          (scalePart (fun a => if a = axis then sl axis else 2 * sr)
            (translatePart (fun a => if a = axis then 1 / 2 else 0) t))) := rfl

set_option maxHeartbeats 1000000 in
/-- Bounding box of a non-symmetric shaft part built from a unit-bounds
template: `[0, length]` along its axis and `[-radius, radius]` on the two
transverse axes. -/
theorem reset_shaft_bounds (t : Mesh) (axis : Fin 3) (sr tr : ℚ) (sl tl : Fin 3 → ℚ)
    (hne : t.points ≠ [])
    (hb : ∀ a, boundsMin a t = -(1 / 2) ∧ boundsMax a t = 1 / 2)
    (hr : 0 ≤ sr) (hl : 0 ≤ sl axis) :
    boundsMin axis (reset_part t axis false sr sl tr tl false false) = 0 ∧
    boundsMax axis (reset_part t axis false sr sl tr tl false false) = sl axis ∧
    ∀ b, b ≠ axis →
      boundsMin b (reset_part t axis false sr sl tr tl false false) = -sr ∧
      boundsMax b (reset_part t axis false sr sl tr tl false false) = sr := by
  simp only [reset_shaft_eq]
  have h1ne : (translatePart (fun a => if a = axis then 1 / 2 else 0) t).points ≠ [] :=
    translate_points_ne _ t hne
  refine ⟨?_, ?_, ?_⟩
  · rw [boundsMin_scale _ _ _ h1ne (by rw [if_pos rfl]; exact hl),
      boundsMin_translate _ _ _ hne, (hb axis).1, if_pos rfl, if_pos rfl]
    ring
  · rw [boundsMax_scale _ _ _ h1ne (by rw [if_pos rfl]; exact hl),
      boundsMax_translate _ _ _ hne, (hb axis).2, if_pos rfl, if_pos rfl]
    ring
  · intro b hbne
    have hs : (0 : ℚ) ≤ if b = axis then sl axis else 2 * sr := by
      rw [if_neg hbne]
      positivity
    constructor
    · rw [boundsMin_scale _ _ _ h1ne hs, boundsMin_translate _ _ _ hne, (hb b).1,
        if_neg hbne, if_neg hbne]
      ring
    · rw [boundsMax_scale _ _ _ h1ne hs, boundsMax_translate _ _ _ hne, (hb b).2,
        if_neg hbne, if_neg hbne]
      ring

set_option maxHeartbeats 1000000 in
/-- Bounding box of a non-symmetric tip part built from a unit-bounds template:
`[shaft_length, shaft_length + tip_length]` along its axis (flush with the
shaft end) and `[-radius, radius]` transverse. -/
theorem reset_tip_bounds (t : Mesh) (axis : Fin 3) (sr tr : ℚ) (sl tl : Fin 3 → ℚ)
    (hne : t.points ≠ [])
    (hb : ∀ a, boundsMin a t = -(1 / 2) ∧ boundsMax a t = 1 / 2)
    (hr : 0 ≤ tr) (hl : 0 ≤ tl axis) :
    boundsMin axis (reset_part t axis true sr sl tr tl false false) = sl axis ∧
    boundsMax axis (reset_part t axis true sr sl tr tl false false) = sl axis + tl axis ∧
    ∀ b, b ≠ axis →
      boundsMin b (reset_part t axis true sr sl tr tl false false) = -tr ∧
      boundsMax b (reset_part t axis true sr sl tr tl false false) = tr := by
  simp only [reset_tip_eq]
  have h1ne : (translatePart (fun a => if a = axis then 1 / 2 else 0) t).points ≠ [] :=
    translate_points_ne _ t hne
  have h2ne : (scalePart (fun a => if a = axis then tl axis else 2 * tr)
      (translatePart (fun a => if a = axis then 1 / 2 else 0) t)).points ≠ [] :=
    scale_points_ne _ _ h1ne
  refine ⟨?_, ?_, ?_⟩
  · rw [boundsMin_translate _ _ _ h2ne,
      boundsMin_scale _ _ _ h1ne (by rw [if_pos rfl]; exact hl),
      boundsMin_translate _ _ _ hne, (hb axis).1, if_pos rfl, if_pos rfl, if_pos rfl]
    ring
  · rw [boundsMax_translate _ _ _ h2ne,
      boundsMax_scale _ _ _ h1ne (by rw [if_pos rfl]; exact hl),
      boundsMax_translate _ _ _ hne, (hb axis).2, if_pos rfl, if_pos rfl, if_pos rfl]
    ring
  · intro b hbne
    have hs : (0 : ℚ) ≤ if b = axis then tl axis else 2 * tr := by
      rw [if_neg hbne]
      positivity
    constructor
    · rw [boundsMin_translate _ _ _ h2ne, boundsMin_scale _ _ _ h1ne hs,
        boundsMin_translate _ _ _ hne, (hb b).1, if_neg hbne, if_neg hbne, if_neg hbne]
      ring
    · rw [boundsMax_translate _ _ _ h2ne, boundsMax_scale _ _ _ h1ne hs,
        boundsMax_translate _ _ _ hne, (hb b).2, if_neg hbne, if_neg hbne, if_neg hbne]
      ring

/-- Bounding box of a symmetric shaft part along its axis: the mirrored copy
extends the part to `[-length, length]`. -/
theorem reset_shaft_sym_bounds (t : Mesh) (axis : Fin 3) (sr tr : ℚ) (sl tl : Fin 3 → ℚ)
    (sb : Bool) (hne : t.points ≠ [])
    (hb : ∀ a, boundsMin a t = -(1 / 2) ∧ boundsMax a t = 1 / 2)
    (hr : 0 ≤ sr) (hl : 0 ≤ sl axis) :
    boundsMin axis (reset_part t axis false sr sl tr tl true sb) = -(sl axis) ∧
    boundsMax axis (reset_part t axis false sr sl tr tl true sb) = sl axis := by
  have hP := reset_shaft_bounds t axis sr tr sl tl hne hb hr hl
  rw [reset_shaft_eq] at hP
  have h1ne : (translatePart (fun a => if a = axis then 1 / 2 else 0) t).points ≠ [] :=
    translate_points_ne _ t hne
  have hPne : (scalePart (fun a => if a = axis then sl axis else 2 * sr)
      (translatePart (fun a => if a = axis then 1 / 2 else 0) t)).points ≠ [] :=
    scale_points_ne _ _ h1ne
  rw [reset_shaft_sym_eq]
  constructor
  · rw [boundsMin_append _ _ _ hPne (flip_points_ne axis _ hPne),
      boundsMin_flip_on_axis axis _ hPne, hP.1, hP.2.1]
    exact min_eq_right (by linarith)
  · rw [boundsMax_append _ _ _ hPne (flip_points_ne axis _ hPne),
      boundsMax_flip_on_axis axis _ hPne, hP.2.1, hP.1]
    rw [neg_zero]
    exact max_eq_left hl

/-- C1: with shaft radius `0.1`, shaft lengths `(1, 2, 3)`, tip radius `0.2`
and tip lengths `(0.2, 0.2, 0.2)`, the `x_shaft` part has extent exactly `1`
along x and exactly `0.2 = 2 × 0.1` along y and z, and the `x_tip` part's
x-bounds start exactly at `1` (flush with the shaft end) with extent `0.2`;
in general a part built from a unit-bounds template spans `[0, length]`
(shafts) or `[shaft_length, shaft_length + tip_length]` (tips) on its own axis
and has extent `2 × radius` on the two transverse axes. -/
theorem axes_scale_law (t : Mesh) (hne : t.points ≠ [])
    (hb : ∀ a, boundsMin a t = -(1 / 2) ∧ boundsMax a t = 1 / 2) :
    (extentAlong 0 (partNamed (axes_output (fun _ => t) (fun _ => t) (1 / 10) (pt 1 2 3)
        (1 / 5) (pt (1 / 5) (1 / 5) (1 / 5)) false false) ("x_shaft")) = 1 ∧
     extentAlong 1 (partNamed (axes_output (fun _ => t) (fun _ => t) (1 / 10) (pt 1 2 3)
        (1 / 5) (pt (1 / 5) (1 / 5) (1 / 5)) false false) ("x_shaft")) = 1 / 5 ∧
     extentAlong 2 (partNamed (axes_output (fun _ => t) (fun _ => t) (1 / 10) (pt 1 2 3)
        (1 / 5) (pt (1 / 5) (1 / 5) (1 / 5)) false false) ("x_shaft")) = 1 / 5 ∧
     boundsMin 0 (partNamed (axes_output (fun _ => t) (fun _ => t) (1 / 10) (pt 1 2 3)
        (1 / 5) (pt (1 / 5) (1 / 5) (1 / 5)) false false) ("x_tip")) = 1 ∧
     extentAlong 0 (partNamed (axes_output (fun _ => t) (fun _ => t) (1 / 10) (pt 1 2 3)
        (1 / 5) (pt (1 / 5) (1 / 5) (1 / 5)) false false) ("x_tip")) = 1 / 5) ∧
    (∀ (axis : Fin 3) (sr tr : ℚ) (sl tl : Fin 3 → ℚ),
      0 ≤ sr → 0 ≤ tr → 0 ≤ sl axis → 0 ≤ tl axis →
      (boundsMin axis (reset_part t axis false sr sl tr tl false false) = 0 ∧
       boundsMax axis (reset_part t axis false sr sl tr tl false false) = sl axis ∧
       ∀ b, b ≠ axis →
         extentAlong b (reset_part t axis false sr sl tr tl false false) = 2 * sr) ∧
      (boundsMin axis (reset_part t axis true sr sl tr tl false false) = sl axis ∧
       boundsMax axis (reset_part t axis true sr sl tr tl false false) = sl axis + tl axis ∧
       ∀ b, b ≠ axis →
         extentAlong b (reset_part t axis true sr sl tr tl false false) = 2 * tr)) := by
  have hgen : ∀ (axis : Fin 3) (sr tr : ℚ) (sl tl : Fin 3 → ℚ),
      0 ≤ sr → 0 ≤ tr → 0 ≤ sl axis → 0 ≤ tl axis →
      (boundsMin axis (reset_part t axis false sr sl tr tl false false) = 0 ∧
       boundsMax axis (reset_part t axis false sr sl tr tl false false) = sl axis ∧
       ∀ b, b ≠ axis →
         extentAlong b (reset_part t axis false sr sl tr tl false false) = 2 * sr) ∧
      (boundsMin axis (reset_part t axis true sr sl tr tl false false) = sl axis ∧
       boundsMax axis (reset_part t axis true sr sl tr tl false false) = sl axis + tl axis ∧
       ∀ b, b ≠ axis →
         extentAlong b (reset_part t axis true sr sl tr tl false false) = 2 * tr) := by
    intro axis sr tr sl tl hsr htr hsl htl
    obtain ⟨hs1, hs2, hs3⟩ := reset_shaft_bounds t axis sr tr sl tl hne hb hsr hsl
    obtain ⟨ht1, ht2, ht3⟩ := reset_tip_bounds t axis sr tr sl tl hne hb htr htl
    refine ⟨⟨hs1, hs2, ?_⟩, ⟨ht1, ht2, ?_⟩⟩
    · intro b hbne
      rw [extentAlong, (hs3 b hbne).2, (hs3 b hbne).1]
      ring
    · intro b hbne
      rw [extentAlong, (ht3 b hbne).2, (ht3 b hbne).1]
      ring
  refine ⟨?_, hgen⟩
  have hxs : partNamed (axes_output (fun _ => t) (fun _ => t) (1 / 10) (pt 1 2 3)
      (1 / 5) (pt (1 / 5) (1 / 5) (1 / 5)) false false) ("x_shaft") =
      reset_part t 0 false (1 / 10) (pt 1 2 3) (1 / 5) (pt (1 / 5) (1 / 5) (1 / 5))
        false false := rfl
  have hxt : partNamed (axes_output (fun _ => t) (fun _ => t) (1 / 10) (pt 1 2 3)
      (1 / 5) (pt (1 / 5) (1 / 5) (1 / 5)) false false) ("x_tip") =
      reset_part t 0 true (1 / 10) (pt 1 2 3) (1 / 5) (pt (1 / 5) (1 / 5) (1 / 5))
        false false := rfl
  have h := hgen 0 (1 / 10) (1 / 5) (pt 1 2 3) (pt (1 / 5) (1 / 5) (1 / 5))
    (by norm_num) (by norm_num)
    (by rw [show pt 1 2 3 0 = 1 from rfl]; norm_num)
    (by rw [show pt (1 / 5) (1 / 5) (1 / 5) 0 = 1 / 5 from rfl]; norm_num)
  have h10 : (1 : Fin 3) ≠ 0 := by decide
  have h20 : (2 : Fin 3) ≠ 0 := by decide
  refine ⟨?_, ?_, ?_, ?_, ?_⟩
  · rw [hxs, extentAlong, h.1.2.1, h.1.1, show pt 1 2 3 0 = 1 from rfl]
    ring
  · rw [hxs, h.1.2.2 1 h10]
    norm_num
  · rw [hxs, h.1.2.2 2 h20]
    norm_num
  · rw [hxt, h.2.1, show pt 1 2 3 0 = 1 from rfl]
  · rw [hxt, extentAlong, h.2.2.1, h.2.1,
      show pt 1 2 3 0 = 1 from rfl, show pt (1 / 5) (1 / 5) (1 / 5) 0 = 1 / 5 from rfl]
    ring

/-- Witness for C1 at the concrete cube template. -/
theorem axes_scale_law_witness :
    (unitTemplate.points ≠ [] ∧
      ∀ a, boundsMin a unitTemplate = -(1 / 2) ∧ boundsMax a unitTemplate = 1 / 2) ∧
    (extentAlong 0 (partNamed (axes_output (fun _ => unitTemplate) (fun _ => unitTemplate)
        (1 / 10) (pt 1 2 3) (1 / 5) (pt (1 / 5) (1 / 5) (1 / 5)) false false)
        ("x_shaft")) = 1 ∧
     extentAlong 1 (partNamed (axes_output (fun _ => unitTemplate) (fun _ => unitTemplate)
        (1 / 10) (pt 1 2 3) (1 / 5) (pt (1 / 5) (1 / 5) (1 / 5)) false false)
        ("x_shaft")) = 1 / 5 ∧
     extentAlong 2 (partNamed (axes_output (fun _ => unitTemplate) (fun _ => unitTemplate)
        (1 / 10) (pt 1 2 3) (1 / 5) (pt (1 / 5) (1 / 5) (1 / 5)) false false)
        ("x_shaft")) = 1 / 5 ∧
     boundsMin 0 (partNamed (axes_output (fun _ => unitTemplate) (fun _ => unitTemplate)
        (1 / 10) (pt 1 2 3) (1 / 5) (pt (1 / 5) (1 / 5) (1 / 5)) false false)
        ("x_tip")) = 1 ∧
     extentAlong 0 (partNamed (axes_output (fun _ => unitTemplate) (fun _ => unitTemplate)
        (1 / 10) (pt 1 2 3) (1 / 5) (pt (1 / 5) (1 / 5) (1 / 5)) false false)
        ("x_tip")) = 1 / 5) :=
  ⟨⟨by simp [unitTemplate], unitTemplate_bounds⟩,
   (axes_scale_law unitTemplate (by simp [unitTemplate]) unitTemplate_bounds).1⟩

/-- C6: with `symmetric = true` and all other parameters at their defaults
(shaft radius `0.025`, shaft length `0.8`), the `x_shaft` part's bounding box
along x is exactly `[-0.8, 0.8]`: the mirrored copy doubles the extent and
centers it at the origin. -/
theorem symmetric_mirror_bounds (t : Mesh) (hne : t.points ≠ [])
    (hb : ∀ a, boundsMin a t = -(1 / 2) ∧ boundsMax a t = 1 / 2) :
    boundsMin 0 (partNamed (axes_output (fun _ => t) (fun _ => t) (1 / 40) (fun _ => 4 / 5)
        (1 / 10) (fun _ => 1 / 5) true false) ("x_shaft")) = -(4 / 5) ∧
    boundsMax 0 (partNamed (axes_output (fun _ => t) (fun _ => t) (1 / 40) (fun _ => 4 / 5)
        (1 / 10) (fun _ => 1 / 5) true false) ("x_shaft")) = 4 / 5 := by
  have hxs : partNamed (axes_output (fun _ => t) (fun _ => t) (1 / 40) (fun _ => 4 / 5)
      (1 / 10) (fun _ => 1 / 5) true false) ("x_shaft") =
      reset_part t 0 false (1 / 40) (fun _ => 4 / 5) (1 / 10) (fun _ => 1 / 5)
        true false := rfl
  have h := reset_shaft_sym_bounds t 0 (1 / 40) (1 / 10) (fun _ => 4 / 5) (fun _ => 1 / 5)
    false hne hb (by norm_num) (by norm_num)
  rw [hxs]
  exact ⟨h.1, h.2⟩

/-- Witness for C6 at the concrete cube template. -/
theorem symmetric_mirror_bounds_witness :
    (unitTemplate.points ≠ [] ∧
      ∀ a, boundsMin a unitTemplate = -(1 / 2) ∧ boundsMax a unitTemplate = 1 / 2) ∧
    boundsMin 0 (partNamed (axes_output (fun _ => unitTemplate) (fun _ => unitTemplate)
        (1 / 40) (fun _ => 4 / 5) (1 / 10) (fun _ => 1 / 5) true false)
        ("x_shaft")) = -(4 / 5) ∧
    boundsMax 0 (partNamed (axes_output (fun _ => unitTemplate) (fun _ => unitTemplate)
        (1 / 40) (fun _ => 4 / 5) (1 / 10) (fun _ => 1 / 5) true false)
        ("x_shaft")) = 4 / 5 :=
  ⟨⟨by simp [unitTemplate], unitTemplate_bounds⟩,
   symmetric_mirror_bounds unitTemplate (by simp [unitTemplate]) unitTemplate_bounds⟩

/-!  The axis triad built from the cone kind.  -/

/-- On a mesh already centered at the origin, `normalize_part` succeeds (when
no axis is degenerate) and only rescales. -/
theorem normalize_of_centered (m : Mesh) (hc : ∀ a, centerAlong a m = 0)
    (hdeg : ∀ a, 1 / 100000000 < extentAlong a m) :
    normalize_part m = Except.ok (scalePart (fun a => (extentAlong a m)⁻¹) m) := by
  have h1 : translatePart (fun a => -(centerAlong a m)) m = m :=
    mapPoints_id_of _ (fun p => funext fun a => by simp [hc a]) m
  have hcond : ¬ ∃ a, extentAlong a m < 1 / 100000000 := by
    rintro ⟨a, ha⟩
    exact absurd ha (not_lt.mpr (le_of_lt (hdeg a)))
  simp only [normalize_part, h1]
  rw [if_neg hcond]

/-- The cone primitive is centered at the origin. -/
theorem conePrimitive_center : ∀ a, centerAlong a conePrimitive = 0 := by
  intro a
  fin_cases a <;>
    simp [centerAlong, boundsMin, boundsMax, coordsAlong, conePrimitive, listMin, listMax,
      pt, min_def, max_def]

/-- The cone primitive has extent 2 on every axis. -/
theorem conePrimitive_extent : ∀ a, extentAlong a conePrimitive = 2 := by
  intro a
  fin_cases a <;>
    simp [extentAlong, boundsMin, boundsMax, coordsAlong, conePrimitive, listMin, listMax,
      pt, min_def, max_def] <;> norm_num

/-- The normalized cone template is the cone primitive scaled by one half. -/
theorem cone_template_eq :
    cone_template = scalePart (fun a => (extentAlong a conePrimitive)⁻¹) conePrimitive := by
  unfold cone_template
  rw [normalize_of_centered conePrimitive conePrimitive_center
    (fun a => by rw [conePrimitive_extent a]; norm_num)]

/-- C4 counterexample: rotating the z-part of the cone triad by -90 degrees
about y places the cone apex at x = -1/2, while the x-part (built by the source
with a +90 degree rotation) has its apex at x = +1/2, so the -90 degree
rotation does not reproduce the x-part's points within `1e-6`. -/
theorem triad_rotation_cex :
    pointCoord (rotate_y_neg90 (make_axes_parts cone_template).2.2) 0 0 = -(1 / 2) ∧
    pointCoord (make_axes_parts cone_template).1 0 0 = 1 / 2 ∧
    ¬ |pointCoord (rotate_y_neg90 (make_axes_parts cone_template).2.2) 0 0 -
        pointCoord (make_axes_parts cone_template).1 0 0| ≤ 1 / 1000000 := by
  have h1 : pointCoord (rotate_y_neg90 (make_axes_parts cone_template).2.2) 0 0 = -(1 / 2) := by
    rw [cone_template_eq]
    simp only [conePrimitive_extent]
    simp [make_axes_parts, rotate_y_neg90, scalePart, mapPoints, pointCoord, conePrimitive, pt]
  have h2 : pointCoord (make_axes_parts cone_template).1 0 0 = 1 / 2 := by
    rw [cone_template_eq]
    simp only [conePrimitive_extent]
    simp [make_axes_parts, rotate_y90, scalePart, mapPoints, pointCoord, conePrimitive, pt]
  refine ⟨h1, h2, ?_⟩
  rw [h1, h2]
  norm_num

/-- C4 amended: the three parts of an axis triad have identical point and face
counts, and rotating the z-part by +90 degrees (not -90 degrees) about the
y-axis reproduces the x-part's point positions exactly. -/
theorem triad_rotation_amended (t : Mesh) :
    ((make_axes_parts t).1.points.length = t.points.length ∧
     (make_axes_parts t).2.1.points.length = t.points.length ∧
     (make_axes_parts t).2.2.points.length = t.points.length ∧
     (make_axes_parts t).1.faces.length = t.faces.length ∧
     (make_axes_parts t).2.1.faces.length = t.faces.length ∧
     (make_axes_parts t).2.2.faces.length = t.faces.length) ∧
    (make_axes_parts t).1 = rotate_y90 ((make_axes_parts t).2.2) := by
  refine ⟨⟨?_, ?_, ?_, ?_, ?_, ?_⟩, rfl⟩ <;>
    simp [make_axes_parts, rotate_y90, rotate_x_neg90, mapPoints]

/-!  Cube faces: defaults, shrinking, frames and aliasing.  -/

/-- Scaling quad points about an origin by the all-ones vector is the
identity. -/
theorem scale_points_one (o sc : Fin 3 → ℚ) (h : ∀ a, sc a = 1) (pts : List Point) :
    scale_points o sc pts = pts := by
  have hf : (fun (p : Point) (a : Fin 3) => (p a - o a) * sc a + o a) = id := by
    funext p a
    show (p a - o a) * sc a + o a = p a
    rw [h a]
    ring
  rw [scale_points, hf, List.map_id]

/-- C7: the default-constructed `CubeFacesSource` output has exactly six named
parts in the order `+X, -X, +Y, -Y, +Z, -Z`, and with `frame_width = None`
every part is a single quad face over 4 points. -/
theorem cube_faces_default_output :
    (cube_faces_update defaultCenter defaultLengths none none none
        default_face_names).map Prod.fst = ["+X", "-X", "+Y", "-Y", "+Z", "-Z"] ∧
    (cube_faces_update defaultCenter defaultLengths none none none
        default_face_names).length = 6 ∧
    ∀ i : Fin 6,
      (facePart (cube_faces_update defaultCenter defaultLengths none none none
          default_face_names) i.val).faces = [[0, 1, 2, 3]] ∧
      (facePart (cube_faces_update defaultCenter defaultLengths none none none
          default_face_names) i.val).points.length = 4 := by
  refine ⟨rfl, rfl, ?_⟩
  intro i
  fin_cases i <;> exact ⟨rfl, rfl⟩

/-- C3: when a shrink factor is set, `update` replaces each face's 4 corners by
the corners scaled toward the face centroid with the per-axis factor
`s + (1-s) × (1 - min_length/length_axis)`; equivalently, each new corner is
`centroid + factor × (corner - centroid)`.  Consequently, for the cube with
`x_length = 2, y_length = z_length = 1` and `shrink_factor = 1/2`, every corner
of the `+X` face moves by exactly `1/4` along both y and z, and every corner of
the `+Y` face moves by exactly the same `1/4` along both x and z. -/
theorem cube_shrink_absolute_offset :
    (∀ (c l : Fin 3 → ℚ) (s : ℚ) (i : Fin 6),
      cube_face_build c l (some s) none none i =
        ⟨scale_points (centroid (cube_face_points c l i))
          (fun a => s + (1 - s) * (1 - min (l 0) (min (l 1) (l 2)) / l a))
          (cube_face_points c l i), [[0, 1, 2, 3]]⟩) ∧
    (∀ (o sc : Fin 3 → ℚ) (pts : List Point),
      scale_points o sc pts = pts.map (fun q a => o a + sc a * (q a - o a))) ∧
    (∀ j : Fin 4,
      (|(cube_face_build defaultCenter (fun a => if a = 0 then 2 else 1) (some (1 / 2))
          none none 0).points.getD j.val (pt 0 0 0) 1 -
        (cube_face_points defaultCenter (fun a => if a = 0 then 2 else 1) 0).getD j.val
          (pt 0 0 0) 1| = 1 / 4 ∧
       |(cube_face_build defaultCenter (fun a => if a = 0 then 2 else 1) (some (1 / 2))
          none none 0).points.getD j.val (pt 0 0 0) 2 -
        (cube_face_points defaultCenter (fun a => if a = 0 then 2 else 1) 0).getD j.val
          (pt 0 0 0) 2| = 1 / 4) ∧
      (|(cube_face_build defaultCenter (fun a => if a = 0 then 2 else 1) (some (1 / 2))
          none none 2).points.getD j.val (pt 0 0 0) 0 -
        (cube_face_points defaultCenter (fun a => if a = 0 then 2 else 1) 2).getD j.val
          (pt 0 0 0) 0| = 1 / 4 ∧
       |(cube_face_build defaultCenter (fun a => if a = 0 then 2 else 1) (some (1 / 2))
          none none 2).points.getD j.val (pt 0 0 0) 2 -
        (cube_face_points defaultCenter (fun a => if a = 0 then 2 else 1) 2).getD j.val
          (pt 0 0 0) 2| = 1 / 4)) := by
  refine ⟨fun c l s i => rfl, ?_, ?_⟩
  · intro o sc pts
    have hf : (fun (p : Point) (a : Fin 3) => (p a - o a) * sc a + o a) =
        fun (q : Point) (a : Fin 3) => o a + sc a * (q a - o a) := by
      funext q a
      ring
    simp only [scale_points, hf]
  · intro j
    fin_cases j <;>
      refine ⟨⟨?_, ?_⟩, ?_, ?_⟩ <;>
        (simp [cube_face_build, cube_face_points, boxCorner, centroid, scale_points,
          defaultCenter, pt, min_def, max_def]
         norm_num)

/-- C10: with `frame_width = 0` (a value the setter accepts), each face is
still replaced by the four-quad frame form with 16 points, but the inner
scaling factor `1 - frame_width × min_length / length_axis` equals one, so the
inner corners coincide with the outer corners and the four frame quads are
zero-width; the single-quad form arises only when `frame_width` is `None`. -/
theorem frame_width_zero_behavior :
    frame_width_valid 0 = true ∧
    (∀ (c l : Fin 3 → ℚ) (i : Fin 6),
      (cube_face_build c l none none (some 0) i).points =
        [(cube_face_points c l i).getD 0 (pt 0 0 0), (cube_face_points c l i).getD 1 (pt 0 0 0),
         (cube_face_points c l i).getD 1 (pt 0 0 0), (cube_face_points c l i).getD 0 (pt 0 0 0),
         (cube_face_points c l i).getD 1 (pt 0 0 0), (cube_face_points c l i).getD 2 (pt 0 0 0),
         (cube_face_points c l i).getD 2 (pt 0 0 0), (cube_face_points c l i).getD 1 (pt 0 0 0),
         (cube_face_points c l i).getD 2 (pt 0 0 0), (cube_face_points c l i).getD 3 (pt 0 0 0),
         (cube_face_points c l i).getD 3 (pt 0 0 0), (cube_face_points c l i).getD 2 (pt 0 0 0),
         (cube_face_points c l i).getD 3 (pt 0 0 0), (cube_face_points c l i).getD 0 (pt 0 0 0),
         (cube_face_points c l i).getD 0 (pt 0 0 0), (cube_face_points c l i).getD 3 (pt 0 0 0)] ∧
      (cube_face_build c l none none (some 0) i).points.length = 16 ∧
      (cube_face_build c l none none (some 0) i).faces =
        [[0, 1, 2, 3], [4, 5, 6, 7], [8, 9, 10, 11], [12, 13, 14, 15]] ∧
      (cube_face_build c l none none none i).faces = [[0, 1, 2, 3]]) := by
  constructor
  · simp [frame_width_valid]
  · intro c l i
    have hone : ∀ a : Fin 3,
        (1 : ℚ) - 0 * min (l 0) (min (l 1) (l 2)) / l a = 1 := by
      intro a
      simp
    have hinner : scale_points (centroid (cube_face_points c l i))
        (fun a => 1 - 0 * min (l 0) (min (l 1) (l 2)) / l a)
        (cube_face_points c l i) = cube_face_points c l i :=
      scale_points_one _ _ hone _
    refine ⟨?_, ?_, rfl, rfl⟩
    · show (create_frame_from_quad_points (cube_face_points c l i)
        (centroid (cube_face_points c l i))
        (fun a => 1 - 0 * min (l 0) (min (l 1) (l 2)) / l a)).1 = _
      simp only [create_frame_from_quad_points, hinner]
    · show (create_frame_from_quad_points (cube_face_points c l i)
        (centroid (cube_face_points c l i))
        (fun a => 1 - 0 * min (l 0) (min (l 1) (l 2)) / l a)).1.length = 16
      simp only [create_frame_from_quad_points, List.length_cons]
      rfl

/-- Writing a heap cell in place and reading it back through the same address
yields the written value. -/
theorem getD_set_self (l : Heap) :
    ∀ (n : ℕ) (v : List (String × Mesh)), n < l.length → (l.set n v).getD n [] = v := by
  induction l with
  | nil =>
      intro n v h
      exact absurd h (Nat.not_lt_zero n)
  | cons x xs ih =>
      intro n v h
      cases n with
      | zero => rfl
      | succ k => exact ih k v (Nat.lt_of_succ_lt_succ h)

/-- C9 counterexample: hand the caller the default-source output, then set
`x_length = 2` on the source and call the accessor again; the object the
caller already holds now shows the new geometry (its `+X` corner moved from
`x = 1/2` to `x = 1`), so the later update did mutate the object previously
handed out. -/
theorem output_aliasing_cex :
    pointCoord (facePart (deref (cf_output cfWideState (cf_output cfDefaultState [[]]).2).2
        (cf_output cfDefaultState [[]]).1) 0) 0 0 = 1 ∧
    pointCoord (facePart (deref (cf_output cfDefaultState [[]]).2
        (cf_output cfDefaultState [[]]).1) 0) 0 0 = 1 / 2 ∧
    deref (cf_output cfWideState (cf_output cfDefaultState [[]]).2).2
        (cf_output cfDefaultState [[]]).1 ≠
      deref (cf_output cfDefaultState [[]]).2 (cf_output cfDefaultState [[]]).1 := by
  have h1 : pointCoord (facePart (deref (cf_output cfWideState
      (cf_output cfDefaultState [[]]).2).2 (cf_output cfDefaultState [[]]).1) 0) 0 0 = 1 := by
    simp [cf_output, cf_heap_update, cfDefaultState, cfWideState, deref, facePart, pointCoord,
      cube_faces_update, cube_face_build, cube_face_points, boxCorner, centroid,
      defaultCenter, defaultLengths, default_face_names, pt, min_def, max_def]
  have h2 : pointCoord (facePart (deref (cf_output cfDefaultState [[]]).2
      (cf_output cfDefaultState [[]]).1) 0) 0 0 = 1 / 2 := by
    simp [cf_output, cf_heap_update, cfDefaultState, deref, facePart, pointCoord,
      cube_faces_update, cube_face_build, cube_face_points, boxCorner, centroid,
      defaultCenter, defaultLengths, default_face_names, pt, min_def, max_def]
  refine ⟨h1, h2, ?_⟩
  intro heq
  have := congrArg (fun o => pointCoord (facePart o 0) 0 0) heq
  simp only at this
  rw [h1, h2] at this
  norm_num at this

/-- C9 amended: the `output` accessor returns a reference to the source's one
internal composite object (the source keeps no separate working copy), so
after a parameter change and a further `update`, dereferencing the object
handed out earlier yields the faces recomputed from the *new* parameters: the
caller's object is mutated in place. -/
theorem output_aliasing_amended (s1 s2 : CubeFacesState) (h0 : Heap)
    (haddr : s2.outAddr = s1.outAddr) (hlen : s1.outAddr < h0.length) :
    deref (cf_output s2 (cf_output s1 h0).2).2 (cf_output s1 h0).1 =
      cube_faces_update s2.center s2.lengths s2.shrinkFactor s2.explodeFactor
        s2.frameWidth s2.names := by
  simp only [cf_output, cf_heap_update, deref, haddr]
  exact getD_set_self _ _ _ (by simpa using hlen)

/-- Witness for C9's amended theorem at the default and widened sources. -/
theorem output_aliasing_amended_witness :
    (cfWideState.outAddr = cfDefaultState.outAddr ∧
      cfDefaultState.outAddr < ([[]] : Heap).length) ∧
    deref (cf_output cfWideState (cf_output cfDefaultState [[]]).2).2
        (cf_output cfDefaultState [[]]).1 =
      cube_faces_update cfWideState.center cfWideState.lengths cfWideState.shrinkFactor
        cfWideState.explodeFactor cfWideState.frameWidth cfWideState.names :=
  ⟨⟨rfl, by simp [cfDefaultState]⟩,
   output_aliasing_amended cfDefaultState cfWideState ([[]] : Heap) rfl
     (by simp [cfDefaultState])⟩

end PyVistaGeom
